import Mathlib

/-!
Shallow embedding of the go-plum/plum HTTP framework core: the per-request
`Context` with its flow-control index (an `int8` with sentinel `abortIndex`),
the `Router` with `Group`/`Use`/`withMiddlewares`/`Handle`, the `Recover`
middleware, and the server dispatch `ServeHTTP`.  Go machine integers are
modeled as `Int` with explicit wrap-around at 8 bits where the source uses
`int8`; fallible operations (slice indexing with an out-of-range index,
which is a Go runtime panic) return `Option`.
-/

namespace Plum

/-- Wrap an integer into the `int8` range `[-128, 127]`, matching Go's
two's-complement wrap-around on `int8` arithmetic and conversions. -/
def wrap8 (i : Int) : Int := (i + 128) % 256 - 128

/-- Go's conversion `int8(n)` of a nonnegative length. -/
def int8ofNat (n : Nat) : Int := wrap8 (n : Int)

/-- `const abortIndex int8 = math.MaxInt8 >> 1` -/
def abortIndex : Int := ((127 >>> 1 : Nat) : Int)

/-- The response side of `http.ResponseWriter` as the state it accumulates:
every `WriteHeader` call is recorded in order (the net/http layer keeps only
the first), plus the response header map. -/
structure Writer where
  statusWrites : List Nat
  headers : List (String × String)
deriving Repr, DecidableEq

/-- `w.WriteHeader(code)`: record the status-code write. -/
def Writer.writeHeader (w : Writer) (code : Nat) : Writer :=
  { w with statusWrites := w.statusWrites ++ [code] }

/-- `http.Header.Set(key, value)`: replace any existing entries for `key`
with the single value `value`. -/
def hdrSet (l : List (String × String)) (key value : String) : List (String × String) :=
  (l.filter (fun p => p.1 ≠ key)) ++ [(key, value)]

/-- `http.Header.Del(key)`: remove all entries for `key`. -/
def hdrDel (l : List (String × String)) (key : String) : List (String × String) :=
  l.filter (fun p => p.1 ≠ key)

/-- Header lookup (`http.Header.Get`). -/
def hdrGet (l : List (String × String)) (key : String) : Option String :=
  (l.find? (fun p => p.1 = key)).map Prod.snd

/-- The parts of `*http.Request` the claims touch. -/
structure Req where
  method : String
  headers : List (String × String)
  body : String
deriving Repr, DecidableEq

/-- Result of `httputil.DumpRequest(req, body)`: the request line/headers,
and the body only when requested. -/
structure DumpRec where
  method : String
  headers : List (String × String)
  body : Option String
deriving Repr, DecidableEq

/-- `httputil.DumpRequest(r, withBody)`. -/
def dumpRequest (r : Req) (withBody : Bool) : DumpRec :=
  { method := r.method, headers := r.headers
    body := if withBody then some r.body else none }

/-- A single URL path parameter (`type Param struct { Key, Value string }`). -/
structure Param where
  key : String
  value : String
deriving Repr, DecidableEq

/-- A Go slice header: its elements plus the capacity of the backing array,
so that `s[:0]` (truncate, keep capacity) is expressible. -/
structure GoSlice (α : Type) where
  data : List α
  cap : Nat
deriving Repr, DecidableEq

/-- Go `append` on a slice: grows the backing array only when full. -/
def goAppend {α : Type} (s : GoSlice α) (x : α) : GoSlice α :=
  { data := s.data ++ [x], cap := max s.cap (s.data.length + 1) }

/-- A statement inside a handler body: ordinary work (tagged so its execution
is observable), or a call to `Context.Abort`.  Handler functions stored in
`Context.handlers` are modeled as straight-line sequences of these. -/
inductive Cmd where
  | work (tag : Nat)
  | abort
deriving Repr, DecidableEq

/-- Observable execution events: the chain executor entering the handler at a
position, or a handler performing one of its work statements. -/
inductive Ev where
  | enter (pos : Nat)
  | work (pos : Nat) (tag : Nat)
deriving Repr, DecidableEq

/-- One line written to stderr by the recovery middleware:
`fmt.Fprintf(os.Stderr, "Plum call recovery panic: %s\n%v\n%s\n", rawReq, err, buf)`. -/
structure LogRecord where
  rawReq : Option DumpRec
  err : String
  stack : List Char
deriving Repr, DecidableEq

/-- The plum `Context`.  The `sync.RWMutex` is not modeled (single execution
thread per request); `Keys map[string]any` is an association list with value
type `Nat` standing in for `any`, wrapped in `Option` so that a nil map is
distinguishable from an initialized empty one.  `log` records handler-chain
execution events and `stderr` the recovery middleware's output; both are
observation instruments, not Go struct fields. -/
structure Context where
  request : Option Req
  writer : Writer
  params : GoSlice Param
  handlers : List (List Cmd)
  index : Int
  keys : Option (List (String × Nat))
  sameSite : Nat
  stderr : List LogRecord
  log : List Ev
deriving Repr, DecidableEq

/-- `func (c *Context) Abort() { c.index = abortIndex }` -/
def Context.Abort (c : Context) : Context :=
  { c with index := abortIndex }

/-- `func (c *Context) IsAborted() bool { return c.index >= abortIndex }` -/
def Context.IsAborted (c : Context) : Bool :=
  abortIndex ≤ c.index

/-- `func (c *Context) Status(code int) { c.Writer.WriteHeader(code) }` -/
def Context.Status (c : Context) (code : Nat) : Context :=
  { c with writer := c.writer.writeHeader code }

/-- `AbortWithStatus`: `c.Status(code); c.Abort()`. -/
def Context.AbortWithStatus (c : Context) (code : Nat) : Context :=
  (c.Status code).Abort

/-- `Context.Set`: lazily initializes `c.Keys` if it was nil, then stores the
pair (replacing any previous entry for the key, as a Go map assignment does). -/
def Context.Set (c : Context) (key : String) (value : Nat) : Context :=
  match c.keys with
  | none => { c with keys := some [(key, value)] }
  | some m => { c with keys := some ((m.filter (fun p => p.1 ≠ key)) ++ [(key, value)]) }

/-- `Context.Get`: lookup in the key/value bag (nil map yields nothing). -/
def Context.Get (c : Context) (key : String) : Option Nat :=
  ((c.keys.getD []).find? (fun p => p.1 = key)).map Prod.snd

/-- `AddParam`: `c.Params = append(c.Params, Param{Key: key, Value: value})`. -/
def Context.AddParam (c : Context) (key value : String) : Context :=
  { c with params := goAppend c.params { key := key, value := value } }

/-- `Context.Header(key, value)`: if `value == ""` delete the response header,
otherwise set it. -/
def Context.Header (c : Context) (key value : String) : Context :=
  if value = "" then
    { c with writer := { c.writer with headers := hdrDel c.writer.headers key } }
  else
    { c with writer := { c.writer with headers := hdrSet c.writer.headers key value } }

/-- `SetSameSite`: store the cookie same-site setting. -/
def Context.SetSameSite (c : Context) (samesite : Nat) : Context :=
  { c with sameSite := samesite }

/-- `Context.reset`: truncate `Params` to length 0 keeping its capacity,
drop the handler chain, set the index to -1, nil out the key/value bag and
clear the same-site setting.  `Request` and `Writer` are not assigned. -/
def Context.reset (c : Context) : Context :=
  { c with
    params := { data := [], cap := c.params.cap }
    handlers := []
    index := -1
    keys := none
    sameSite := 0 }

/-- `Context.Copy`: a fresh struct holding the same request handle, with the
index already at `abortIndex`, a freshly built map holding the same entries
(non-nil even when the source bag was nil), and a fresh parameter slice of
exactly the needed capacity.  All other fields are Go zero values. -/
def Context.Copy (c : Context) : Context :=
  { request := c.request
    writer := { statusWrites := [], headers := [] }
    index := abortIndex
    handlers := []
    keys := some (c.keys.getD [])
    params := { data := c.params.data, cap := c.params.data.length }
    sameSite := 0
    stderr := []
    log := [] }

/-- Execute one handler-body statement at chain position `pos`. -/
def runCmd (pos : Nat) (c : Context) : Cmd → Context
  | .work tag => { c with log := c.log ++ [Ev.work pos tag] }
  | .abort => c.Abort

/-- Execute a whole handler body (handlers run to the end of their own code
regardless of an `Abort` call inside). -/
def runHandler (pos : Nat) (cmds : List Cmd) (c : Context) : Context :=
  cmds.foldl (runCmd pos) c

/-- The work events a handler body at position `pos` contributes to the log. -/
def workEvents (pos : Nat) (cmds : List Cmd) : List Ev :=
  cmds.filterMap (fun cmd => match cmd with
    | .work tag => some (Ev.work pos tag)
    | .abort => none)

/-- One iteration of the `Context.Next` loop body at chain position `pos`:
run `c.handlers[pos]` on the context (recording the entry event), then
`c.index++` with `int8` wrap-around.  Only ever called under the in-range
guard of `nextLoop`, so the `getD` default is unreachable. -/
def stepAt (c : Context) (pos : Nat) : Context :=
  let c1 := runHandler pos (c.handlers.getD pos []) { c with log := c.log ++ [Ev.enter pos] }
  { c1 with index := wrap8 (c1.index + 1) }

/-- The loop of `Context.Next`:
`for c.index < int8(len(c.handlers)) { c.handlers[c.index](c); c.index++ }`.
`none` is returned when the fuel runs out before the loop exits, or when the
slice access `c.handlers[c.index]` would be a Go runtime panic (index
out of range, possible only after `int8` wrap-around). -/
def nextLoop : Nat → Context → Option Context
  | 0, c =>
    if c.index < int8ofNat c.handlers.length then none else some c
  | fuel + 1, c =>
    if c.index < int8ofNat c.handlers.length then
      if 0 ≤ c.index ∧ c.index.toNat < c.handlers.length then
        nextLoop fuel (stepAt c c.index.toNat)
      else none
    else some c

/-- `Context.Next`: `c.index++` followed by the execution loop. -/
def Context.Next (c : Context) (fuel : Nat) : Option Context :=
  nextLoop fuel { c with index := wrap8 (c.index + 1) }

/-- Outcome of running a plum `HandlerFunc`: normal completion with the
updated context, or a Go panic carrying the panic value and the stack of the
panicking goroutine, together with the context state at that moment. -/
inductive RecResult where
  | ok (c : Context)
  | panicked (err : String) (stack : List Char) (c : Context)

/-- A plum `HandlerFunc` (`func(*Context)`), which may panic. -/
abbrev HandlerP := Context → RecResult

/-- A plum `Middleware` (`func(HandlerFunc) HandlerFunc`). -/
abbrev MiddlewareP := HandlerP → HandlerP

/-- The `Recover` middleware: run the handler; on a panic, capture the stack
into a 64 KiB buffer (`runtime.Stack` truncates to the buffer size), dump the
request without its body when present, write the record to stderr, then
`ctx.AbortWithStatus(http.StatusInternalServerError)`.  The wrapped handler
always returns normally. -/
def Recover (handler : HandlerP) : HandlerP := fun ctx =>
  match handler ctx with
  | .ok c => .ok c
  | .panicked err stack c =>
    let stackTrace := stack.take 65536
    let rawReq := c.request.map (fun r => dumpRequest r false)
    let c2 := { c with stderr := c.stderr ++ [(⟨rawReq, err, stackTrace⟩ : LogRecord)] }
    .ok (c2.AbortWithStatus 500)

/-- The plum `Router` (grouping node), generic in the middleware type `M`
so that claims can instantiate middleware with the handler model they need.
The `engine` back-pointer is not modeled; the mux is threaded explicitly
through `Handle`. -/
structure Router (M : Type) where
  scope : String
  basePath : String
  middlewares : List M

/-- Modelled from the spec: `joinPaths` is referenced by `Router.Group` but
its definition is not among the provided sources.  Per the spec it joins two
path segments, treating an empty relative path as a no-op and collapsing a
duplicate separator at the join point. -/
def joinPaths (basePath relativePath : String) : String :=
  if relativePath = "" then basePath
  else if basePath.endsWith "/" && relativePath.startsWith "/" then
    basePath ++ relativePath.drop 1
  else if !basePath.endsWith "/" && !relativePath.startsWith "/" then
    basePath ++ "/" ++ relativePath
  else basePath ++ relativePath

/-- `Router.Group`: a new router scoped at `r.scope + relativePath`; when
extra middleware is supplied it is reversed and concatenated in front of the
parent's list (`slices.Concat` allocates a fresh slice). -/
def Router.Group {M : Type} (r : Router M) (relativePath : String) (m : List M) : Router M :=
  let newRouter : Router M :=
    { scope := r.scope ++ relativePath
      basePath := joinPaths r.basePath relativePath
      middlewares := r.middlewares }
  if 0 < m.length then
    { newRouter with middlewares := m.reverse ++ newRouter.middlewares }
  else newRouter

/-- `Router.Use`: reverse the supplied middleware and concatenate it in front
of the router's own list (again via a freshly allocated slice). -/
def Router.Use {M : Type} (r : Router M) (m : List M) : Router M :=
  { r with middlewares := m.reverse ++ r.middlewares }

/-- `Router.withMiddlewares`:
`for _, middleware := range r.middlewares { handler = middleware(handler) }`. -/
def Router.withMiddlewares {H : Type} (r : Router (H → H)) (handler : H) : H :=
  r.middlewares.foldl (fun h m => m h) handler

/-- `Router.Handle`: append the exact-match marker when the route ends in a
separator, then register `method + " " + r.scope + route` on the mux with the
middleware-composed handler (the `RouterHandler`'s `h` field). -/
def Router.Handle {H : Type} (r : Router (H → H)) (mux : List (String × H))
    (method route : String) (handler : H) : List (String × H) :=
  let route := if route.endsWith "/" then route ++ "\x7b$\x7d" else route
  mux ++ [(method ++ " " ++ r.scope ++ route, r.withMiddlewares handler)]

/-- The router held by a freshly constructed engine: `New` builds
`Router{basePath: "/"}` and immediately calls `p.Use(Recover)`. -/
def plumNewRouter : Router MiddlewareP :=
  Router.Use { scope := "", basePath := "/", middlewares := [] } [Recover]

/-- Routers reachable through the public API from a fresh engine: the
engine's own router, and anything obtained from a reachable router by
`Group` or `Use`. -/
inductive DerivedRouter : Router MiddlewareP → Prop where
  | new : DerivedRouter plumNewRouter
  | group (r : Router MiddlewareP) (p : String) (ms : List MiddlewareP) :
      DerivedRouter r → DerivedRouter (r.Group p ms)
  | use (r : Router MiddlewareP) (ms : List MiddlewareP) :
      DerivedRouter r → DerivedRouter (r.Use ms)

/-- Handler model for middleware-ordering claims: a transformer of the
execution trace (the list of labels of the wrapper code run so far). -/
abbrev TraceH := List String → List String

/-- A middleware that records its label and then delegates to the wrapped
handler: the shape of ordinary before-delegation middleware. -/
def mwWrap (label : String) (h : TraceH) : TraceH :=
  fun tr => h (tr ++ [label])

/-- A terminal handler that records that it ran. -/
def termHandler : TraceH :=
  fun tr => tr ++ ["handler"]

/-- The parts of an incoming request the server dispatch inspects. -/
structure MuxReq where
  requestURI : String
  protoMajor : Nat
  protoMinor : Nat
  method : String
  path : String
deriving Repr, DecidableEq

/-- `req.ProtoAtLeast(major, minor)`. -/
def protoAtLeast (r : MuxReq) (major minor : Nat) : Bool :=
  major < r.protoMajor || (r.protoMajor == major && minor ≤ r.protoMinor)

/-- `Plum.ServeHTTP`: a `*`-target gets a fixed 400 (with `Connection: close`
on HTTP/1.1+); otherwise `p.mux.Handler(req)` resolves the request --
modeled by the `resolve` argument, `none` standing for the empty pattern a
miss returns -- and on a miss the code prints "not found " to stdout and
returns without touching the ResponseWriter, else the resolved handler runs. -/
def ServeHTTP (resolve : MuxReq → Option (String × (MuxReq → Writer → Writer)))
    (req : MuxReq) (res : Writer) : Writer :=
  if req.requestURI = "*" then
    let res1 := if protoAtLeast req 1 1 then
        { res with headers := hdrSet res.headers "Connection" "close" }
      else res
    res1.writeHeader 400
  else
    match resolve req with
    | none => res
    | some (_, h) => h req res

/-- The context a `RouterHandler.ServeHTTP` dispatch hands to the composed
handler: a pooled context with the writer, request and engine freshly
assigned, then `ctx.reset()`. -/
def dispatchCtx (w : Writer) (req : Req) (pooled : Context) : Context :=
  Context.reset { pooled with writer := w, request := some req }

/-- `RouterHandler.ServeHTTP`: prepare the context and run the pre-composed
handler (`r.h(ctx)`); the pool `Get`/`Put` pair is not modeled. -/
def RouterHandler.ServeHTTP (h : Context → Context) (w : Writer) (req : Req)
    (pooled : Context) : Context :=
  h (dispatchCtx w req pooled)

/-- The context-mutating API calls a handler body can make during dispatch. -/
inductive CtxAction where
  | next
  | abort
  | abortWithStatus (code : Nat)
  | set (key : String) (value : Nat)
  | addParam (key value : String)
  | header (key value : String)
  | status (code : Nat)
  | setSameSite (s : Nat)
deriving Repr, DecidableEq

/-- The Abort family: the calls that assign `c.index = abortIndex`. -/
def isAbortFamily : CtxAction → Bool
  | .abort => true
  | .abortWithStatus _ => true
  | _ => false

/-- Semantics of one API call.  `Next` is run with enough fuel for the
context's (empty, during real dispatch) handler chain; `none` marks a Go
runtime panic inside the call. -/
def applyAction (c : Context) : CtxAction → Option Context
  | .next => c.Next (c.handlers.length + 1)
  | .abort => some c.Abort
  | .abortWithStatus code => some (c.AbortWithStatus code)
  | .set key value => some (c.Set key value)
  | .addParam key value => some (c.AddParam key value)
  | .header key value => some (c.Header key value)
  | .status code => some (c.Status code)
  | .setSameSite s => some (c.SetSameSite s)

/-- Run a sequence of API calls from a context state. -/
def runActions (c : Context) : List CtxAction → Option Context
  | [] => some c
  | a :: rest => match applyAction c a with
    | none => none
    | some c1 => runActions c1 rest

/-! ## Basic lemmas -/

lemma Router.group_middlewares {M : Type} (r : Router M) (p : String) (ms : List M) :
    (r.Group p ms).middlewares = ms.reverse ++ r.middlewares := by
  unfold Router.Group
  by_cases h : 0 < ms.length
  · simp [h]
  · have hms : ms = [] := List.length_eq_zero.mp (Nat.eq_zero_of_not_pos h)
    simp [hms]

lemma Router.use_middlewares {M : Type} (r : Router M) (ms : List M) :
    (r.Use ms).middlewares = ms.reverse ++ r.middlewares := rfl

lemma hdrGet_set (l : List (String × String)) (k v : String) :
    hdrGet (hdrSet l k v) k = some v := by
  unfold hdrGet hdrSet
  simp

lemma hdrGet_del (l : List (String × String)) (k : String) :
    hdrGet (hdrDel l k) k = none := by
  unfold hdrGet hdrDel
  simp

lemma int8ofNat_zero : int8ofNat 0 = 0 := by decide

lemma nextLoop_done (fuel : Nat) (c : Context)
    (h : ¬ c.index < int8ofNat c.handlers.length) :
    nextLoop fuel c = some c := by
  cases fuel <;> simp [nextLoop, h]

lemma nextLoop_step (fuel : Nat) (c : Context)
    (hcond : c.index < int8ofNat c.handlers.length)
    (hin : 0 ≤ c.index ∧ c.index.toNat < c.handlers.length) :
    nextLoop (fuel + 1) c = nextLoop fuel (stepAt c c.index.toNat) := by
  simp [nextLoop, hcond, hin]

lemma Context.next_empty (c : Context) (fuel : Nat) (hh : c.handlers = [])
    (h1 : -1 ≤ c.index) (h2 : c.index ≤ 126) :
    c.Next fuel = some { c with index := c.index + 1 } := by
  have hw : wrap8 (c.index + 1) = c.index + 1 := by
    unfold wrap8
    have h256 : (c.index + 1 + 128) % 256 = c.index + 1 + 128 :=
      Int.emod_eq_of_lt (by omega) (by omega)
    omega
  unfold Context.Next
  rw [hw]
  apply nextLoop_done
  show ¬ (c.index + 1 < int8ofNat c.handlers.length)
  rw [hh]
  simp only [List.length_nil, int8ofNat_zero]
  omega

lemma wrap8_small (i : Int) (h1 : -128 ≤ i) (h2 : i ≤ 127) : wrap8 i = i := by
  unfold wrap8
  have h256 : (i + 128) % 256 = i + 128 := Int.emod_eq_of_lt (by omega) (by omega)
  omega

lemma int8ofNat_small (n : Nat) (h : n ≤ 127) : int8ofNat n = n := by
  unfold int8ofNat
  exact wrap8_small _ (by omega) (by omega)

lemma runHandler_cons (pos : Nat) (cmd : Cmd) (t : List Cmd) (c : Context) :
    runHandler pos (cmd :: t) c = runHandler pos t (runCmd pos c cmd) := rfl

lemma runCmd_handlers (pos : Nat) (c : Context) (cmd : Cmd) :
    (runCmd pos c cmd).handlers = c.handlers := by
  cases cmd <;> rfl

lemma runHandler_handlers (pos : Nat) (cmds : List Cmd) (c : Context) :
    (runHandler pos cmds c).handlers = c.handlers := by
  induction cmds generalizing c with
  | nil => rfl
  | cons cmd t ih =>
    rw [runHandler_cons, ih, runCmd_handlers]

lemma runHandler_index_noabort (pos : Nat) (cmds : List Cmd) (c : Context)
    (h : Cmd.abort ∉ cmds) : (runHandler pos cmds c).index = c.index := by
  induction cmds generalizing c with
  | nil => rfl
  | cons cmd t ih =>
    have h1 : cmd ≠ Cmd.abort := fun he => h (he ▸ List.mem_cons_self _ _)
    have h2 : Cmd.abort ∉ t := fun ht => h (List.mem_cons_of_mem _ ht)
    rw [runHandler_cons, ih _ h2]
    cases cmd with
    | work tag => rfl
    | abort => exact absurd rfl h1

lemma runHandler_index_abort (pos : Nat) (cmds : List Cmd) (c : Context)
    (h : Cmd.abort ∈ cmds) : (runHandler pos cmds c).index = abortIndex := by
  induction cmds generalizing c with
  | nil => cases h
  | cons cmd t ih =>
    rw [runHandler_cons]
    by_cases ht : Cmd.abort ∈ t
    · exact ih _ ht
    · have hc : cmd = Cmd.abort := by
        rcases List.mem_cons.mp h with h1 | h2
        · exact h1.symm
        · exact absurd h2 ht
      subst hc
      rw [runHandler_index_noabort pos t _ ht]
      rfl

lemma runHandler_log (pos : Nat) (cmds : List Cmd) (c : Context) :
    (runHandler pos cmds c).log = c.log ++ workEvents pos cmds := by
  induction cmds generalizing c with
  | nil => simp [runHandler, workEvents]
  | cons cmd t ih =>
    rw [runHandler_cons, ih]
    cases cmd with
    | work tag => simp [runCmd, workEvents, List.filterMap_cons]
    | abort => simp [runCmd, Context.Abort, workEvents, List.filterMap_cons]

lemma mem_workEvents_of_mem (pos tag : Nat) (cmds : List Cmd)
    (h : Cmd.work tag ∈ cmds) : Ev.work pos tag ∈ workEvents pos cmds := by
  unfold workEvents
  exact List.mem_filterMap.mpr ⟨Cmd.work tag, h, rfl⟩

lemma enter_not_mem_workEvents (j pos : Nat) (cmds : List Cmd) :
    Ev.enter j ∉ workEvents pos cmds := by
  unfold workEvents
  intro h
  rcases List.mem_filterMap.mp h with ⟨cmd, _, he⟩
  cases cmd <;> simp at he

lemma stepAt_handlers (c : Context) (pos : Nat) :
    (stepAt c pos).handlers = c.handlers := by
  show (runHandler pos (c.handlers.getD pos [])
    { c with log := c.log ++ [Ev.enter pos] }).handlers = c.handlers
  rw [runHandler_handlers]

lemma stepAt_log (c : Context) (pos : Nat) :
    (stepAt c pos).log = c.log ++ [Ev.enter pos] ++ workEvents pos (c.handlers.getD pos []) := by
  show (runHandler pos (c.handlers.getD pos [])
    { c with log := c.log ++ [Ev.enter pos] }).log = _
  rw [runHandler_log]

lemma stepAt_index_abort (c : Context) (pos : Nat)
    (h : Cmd.abort ∈ c.handlers.getD pos []) :
    (stepAt c pos).index = abortIndex + 1 := by
  show wrap8 ((runHandler pos (c.handlers.getD pos [])
    { c with log := c.log ++ [Ev.enter pos] }).index + 1) = abortIndex + 1
  rw [runHandler_index_abort _ _ _ h]
  decide

lemma stepAt_index_noabort (c : Context) (pos : Nat)
    (h : Cmd.abort ∉ c.handlers.getD pos []) :
    (stepAt c pos).index = wrap8 (c.index + 1) := by
  show wrap8 ((runHandler pos (c.handlers.getD pos [])
    { c with log := c.log ++ [Ev.enter pos] }).index + 1) = wrap8 (c.index + 1)
  rw [runHandler_index_noabort _ _ _ h]

/-- The heart of claim C2: running the `Next` loop from position `i` over a
chain whose handlers up to position `k` are abort-free while the handler at
`k` contains an `Abort` call terminates with the index past the sentinel;
only positions up to `k` are ever entered, and handler `k`'s whole body
(all its work statements) has executed. -/
lemma nextLoop_abort_run (chain : List (List Cmd)) (k : Nat) (hk : k < chain.length)
    (hlen : chain.length ≤ 63) (habort : Cmd.abort ∈ chain.get ⟨k, hk⟩) :
    ∀ (d fuel : Nat) (c : Context) (i : Nat),
      c.handlers = chain → c.index = (i : Int) → i + d = k →
      (∀ p (hp : p < chain.length), i ≤ p → p < k → Cmd.abort ∉ chain.get ⟨p, hp⟩) →
      d < fuel →
      ∃ c2 ext, nextLoop fuel c = some c2 ∧ c2.handlers = chain ∧
        c2.index = abortIndex + 1 ∧ c2.log = c.log ++ ext ∧
        (∀ j, Ev.enter j ∈ ext → j ≤ k) ∧
        (∀ t, Cmd.work t ∈ chain.get ⟨k, hk⟩ → Ev.work k t ∈ ext) := by
  intro d
  induction d with
  | zero =>
    intro fuel c i hh hi hik hbefore hfuel
    have hik0 : i = k := by omega
    subst hik0
    obtain ⟨f, rfl⟩ : ∃ f, fuel = f + 1 := ⟨fuel - 1, by omega⟩
    have hlen2 : c.handlers.length = chain.length := by rw [hh]
    have hcond : c.index < int8ofNat c.handlers.length := by
      rw [hi, hlen2, int8ofNat_small _ (by omega)]
      exact_mod_cast hk
    have hin : 0 ≤ c.index ∧ c.index.toNat < c.handlers.length := by
      rw [hi, hlen2]
      refine ⟨by positivity, ?_⟩
      rw [Int.toNat_natCast]
      exact hk
    have hnat : c.index.toNat = i := by rw [hi]; exact Int.toNat_natCast i
    have hgetD : c.handlers.getD i [] = chain.get ⟨i, hk⟩ := by
      rw [hh, List.getD_eq_getElem chain [] hk]
      rfl
    rw [nextLoop_step f c hcond hin, hnat]
    have hdone : ¬ (stepAt c i).index < int8ofNat (stepAt c i).handlers.length := by
      rw [stepAt_index_abort c i (hgetD ▸ habort), stepAt_handlers, hlen2,
        int8ofNat_small _ (by omega)]
      have : (chain.length : Int) ≤ 63 := by exact_mod_cast hlen
      rw [show abortIndex + 1 = (64 : Int) from rfl]
      omega
    rw [nextLoop_done f _ hdone]
    refine ⟨stepAt c i, [Ev.enter i] ++ workEvents i (chain.get ⟨i, hk⟩), rfl,
      by rw [stepAt_handlers, hh], stepAt_index_abort c i (hgetD ▸ habort), ?_, ?_, ?_⟩
    · rw [stepAt_log, hgetD, List.append_assoc]
    · intro j hj
      rcases List.mem_append.mp hj with hj1 | hj2
      · simp at hj1
        omega
      · exact absurd hj2 (enter_not_mem_workEvents j i _)
    · intro t ht
      exact List.mem_append_right _ (mem_workEvents_of_mem i t _ ht)
  | succ d ih =>
    intro fuel c i hh hi hik hbefore hfuel
    have hiklt : i < k := by omega
    have hilen : i < chain.length := by omega
    obtain ⟨f, rfl⟩ : ∃ f, fuel = f + 1 := ⟨fuel - 1, by omega⟩
    have hlen2 : c.handlers.length = chain.length := by rw [hh]
    have hcond : c.index < int8ofNat c.handlers.length := by
      rw [hi, hlen2, int8ofNat_small _ (by omega)]
      exact_mod_cast hilen
    have hin : 0 ≤ c.index ∧ c.index.toNat < c.handlers.length := by
      rw [hi, hlen2]
      refine ⟨by positivity, ?_⟩
      rw [Int.toNat_natCast]
      exact hilen
    have hnat : c.index.toNat = i := by rw [hi]; exact Int.toNat_natCast i
    have hgetD : c.handlers.getD i [] = chain.get ⟨i, hilen⟩ := by
      rw [hh, List.getD_eq_getElem chain [] hilen]
      rfl
    have hnoab : Cmd.abort ∉ c.handlers.getD i [] := by
      rw [hgetD]
      exact hbefore i hilen (le_refl i) hiklt
    rw [nextLoop_step f c hcond hin, hnat]
    have hstepidx : (stepAt c i).index = ((i + 1 : Nat) : Int) := by
      rw [stepAt_index_noabort c i hnoab, hi]
      rw [wrap8_small _ (by omega) (by omega)]
      push_cast
      ring
    obtain ⟨c2, ext2, hrun, hhand, hidx, hlog, henter, hwork⟩ :=
      ih f (stepAt c i) (i + 1) (by rw [stepAt_handlers, hh]) hstepidx (by omega)
        (fun p hp hip hpk => hbefore p hp (by omega) hpk) (by omega)
    refine ⟨c2, [Ev.enter i] ++ workEvents i (chain.get ⟨i, hilen⟩) ++ ext2,
      hrun, hhand, hidx, ?_, ?_, ?_⟩
    · rw [hlog, stepAt_log, hgetD]
      simp [List.append_assoc]
    · intro j hj
      rcases List.mem_append.mp hj with hj1 | hj2
      · rcases List.mem_append.mp hj1 with hj3 | hj4
        · simp at hj3
          omega
        · exact absurd hj4 (enter_not_mem_workEvents j i _)
      · exact henter j hj2
    · intro t ht
      exact List.mem_append_right _ (hwork t ht)

/-- A concrete context used to instantiate witnesses. -/
def ctx0 : Context :=
  { request := none
    writer := { statusWrites := [], headers := [] }
    params := { data := [], cap := 0 }
    handlers := []
    index := -1
    keys := none
    sameSite := 0
    stderr := []
    log := [] }

/-- A concrete request whose method and path match no registered pattern. -/
def missReq : MuxReq :=
  { requestURI := "/nope", protoMajor := 1, protoMinor := 1
    method := "GET", path := "/nope" }

/-! ## Claims -/

/-- Claim C1 (code_bug evidence): when the mux resolves the request to no
registered pattern, `ServeHTTP` returns with the response writer untouched --
no 404 (indeed no status at all) is ever written.  Evaluated at the concrete
failing input: `GET /nope` against a mux with no registered patterns. -/
theorem c1_not_found_silent_miss :
    ServeHTTP (fun _ => none) missReq { statusWrites := [], headers := [] } =
      { statusWrites := [], headers := [] } ∧
    (ServeHTTP (fun _ => none) missReq { statusWrites := [], headers := [] }).statusWrites
      = [] := by
  exact ⟨rfl, rfl⟩

/-- Claim C8: `Handle(method, path, handler)` registers against the mux the
pattern `method ++ " " ++ scope ++ path`, with the exact-match marker
appended exactly when the path ends in the separator `/`; the registered
handler is the middleware-composed one. -/
theorem c8_handle_pattern {H : Type} (r : Router (H → H)) (mux : List (String × H))
    (method route : String) (handler : H) :
    Router.Handle r mux method route handler =
      mux ++ [(method ++ " " ++ r.scope ++ route ++
        (if route.endsWith "/" then "\x7b$\x7d" else ""),
        r.withMiddlewares handler)] := by
  unfold Router.Handle
  by_cases h : route.endsWith "/"
  · simp [h, String.append_assoc]
  · simp [h]

/-- Claim C10: `Context.Header(key, value)` with a non-empty value sets the
response header `key` to `value`; with the empty string it deletes the header
instead. -/
theorem c10_header (c : Context) (key value : String) (hv : value ≠ "") :
    hdrGet (c.Header key value).writer.headers key = some value ∧
    hdrGet (c.Header key "").writer.headers key = none := by
  constructor
  · unfold Context.Header
    rw [if_neg hv]
    exact hdrGet_set c.writer.headers key value
  · unfold Context.Header
    rw [if_pos rfl]
    exact hdrGet_del c.writer.headers key

/-- Witness for C10 at a concrete context and header. -/
theorem c10_header_witness :
    ("v" : String) ≠ "" ∧
    hdrGet (ctx0.Header "X-Test" "v").writer.headers "X-Test" = some "v" ∧
    hdrGet (ctx0.Header "X-Test" "").writer.headers "X-Test" = none :=
  ⟨by decide, (c10_header ctx0 "X-Test" "v" (by decide)).1,
    (c10_header ctx0 "X-Test" "v" (by decide)).2⟩

/-- Claim C6: `Copy` keeps the same request handle, clones the key/value bag
(with exactly the original entries) and the parameter list, and sets the
index to the abort sentinel, so the copy reports aborted and `Next` on it
only bumps the index without invoking any handler (its event log stays
empty). -/
theorem c6_copy (c : Context) (fuel : Nat) :
    (c.Copy).request = c.request ∧
    (c.Copy).keys = some (c.keys.getD []) ∧
    (c.Copy).params.data = c.params.data ∧
    (c.Copy).index = abortIndex ∧
    (c.Copy).IsAborted = true ∧
    (c.Copy).Next fuel = some { c.Copy with index := abortIndex + 1 } := by
  refine ⟨rfl, rfl, rfl, rfl, rfl, ?_⟩
  exact Context.next_empty c.Copy fuel rfl (show (-1 : Int) ≤ abortIndex by decide)
    (show abortIndex ≤ 126 by decide)

/-- Claim C7: `reset` truncates the parameter slice to empty keeping its
capacity, clears the handler chain, sets the index to -1, nils out the
key/value bag (so the next `Set` lazily re-initializes it) and clears the
same-site setting, while leaving the request and writer handles untouched. -/
theorem c7_reset (c : Context) (key : String) (value : Nat) :
    (c.reset).params.data = [] ∧
    (c.reset).params.cap = c.params.cap ∧
    (c.reset).handlers = [] ∧
    (c.reset).index = -1 ∧
    (c.reset).keys = none ∧
    (c.reset).sameSite = 0 ∧
    (c.reset).request = c.request ∧
    (c.reset).writer = c.writer ∧
    ((c.reset).Set key value).keys = some [(key, value)] := by
  refine ⟨rfl, rfl, rfl, rfl, rfl, rfl, rfl, rfl, rfl⟩

/-- Claim C4: a child group's middleware list is the supplied middleware
(reversed, first-supplied outermost) concatenated in front of the parent's
list as of group creation; a later `Use` on the parent leaves previously
registered mux entries untouched (registration only appends) and affects
only subsequently created children. -/
theorem c4_group_snapshot {H : Type} (r : Router (H → H)) (p p2 : String)
    (ms ms2 msLater : List (H → H)) (mux : List (String × H))
    (method route : String) (handler : H) :
    (r.Group p ms).middlewares = ms.reverse ++ r.middlewares ∧
    (∀ e ∈ mux, e ∈ Router.Handle (r.Use msLater) mux method route handler) ∧
    (Router.Handle (r.Use msLater) mux method route handler).take mux.length = mux ∧
    ((r.Use msLater).Group p2 ms2).middlewares =
      ms2.reverse ++ msLater.reverse ++ r.middlewares := by
  refine ⟨Router.group_middlewares r p ms, ?_, ?_, ?_⟩
  · intro e he
    unfold Router.Handle
    exact List.mem_append_left _ he
  · unfold Router.Handle
    exact List.take_left mux _
  · rw [Router.group_middlewares, Router.use_middlewares, List.append_assoc]

lemma foldl_mwWrap (names : List String) (h : TraceH) (tr : List String) :
    ((names.map mwWrap).foldl (fun h m => m h) h) tr = h (tr ++ names.reverse) := by
  induction names generalizing h tr with
  | nil => simp
  | cons a t ih =>
    simp only [List.map_cons, List.foldl_cons]
    rw [ih (mwWrap a h) tr]
    simp [mwWrap]

/-- Claim C3: for middleware `[A, B]` supplied together in one `Use` call,
the composed handler later built for a route on that router runs A's wrapper
code first, then B's, then the terminal handler: over any stack of ordinary
label-recording middleware already on the router, the execution trace ends
`[..., A, B, "handler"]`. -/
theorem c3_use_first_outermost (names : List String) (a b : String)
    (r : Router (TraceH → TraceH))
    (hr : r.middlewares = names.map mwWrap) :
    Router.withMiddlewares (r.Use [mwWrap a, mwWrap b]) termHandler [] =
      names.reverse ++ [a, b, "handler"] := by
  unfold Router.withMiddlewares
  have hm : (r.Use [mwWrap a, mwWrap b]).middlewares = (b :: a :: names).map mwWrap := by
    rw [Router.use_middlewares, hr]
    rfl
  rw [hm, foldl_mwWrap]
  simp [termHandler]

/-- Witness for C3 on a router with no prior middleware and labels A, B. -/
theorem c3_use_first_outermost_witness :
    Router.withMiddlewares
      (Router.Use (⟨"", "/", []⟩ : Router (TraceH → TraceH)) [mwWrap "A", mwWrap "B"])
      termHandler [] = ["A", "B", "handler"] := by
  have h := c3_use_first_outermost [] "A" "B" ⟨"", "/", []⟩ rfl
  simpa using h

lemma derived_last_recover (r : Router MiddlewareP) (h : DerivedRouter r) :
    ∃ rest, r.middlewares = rest ++ [Recover] := by
  induction h with
  | new => exact ⟨[], rfl⟩
  | group r p ms _ ih =>
    obtain ⟨rest, hrest⟩ := ih
    exact ⟨ms.reverse ++ rest, by rw [Router.group_middlewares, hrest, List.append_assoc]⟩
  | use r ms _ ih =>
    obtain ⟨rest, hrest⟩ := ih
    exact ⟨ms.reverse ++ rest, by rw [Router.use_middlewares, hrest, List.append_assoc]⟩

lemma withMiddlewares_last (r : Router MiddlewareP) (rest : List MiddlewareP)
    (hrest : r.middlewares = rest ++ [Recover]) (h : HandlerP) :
    r.withMiddlewares h = Recover (rest.foldl (fun h m => m h) h) := by
  unfold Router.withMiddlewares
  rw [hrest, List.foldl_append]
  rfl

/-- Claim C5: every router reachable from a fresh engine carries `Recover`
as the outermost-executing wrapper of any composed handler; `Recover` never
re-panics, and on a panic it logs a stack trace truncated to the 64 KiB
buffer plus a body-free request dump, writes a 500 status, and marks the
chain aborted. -/
theorem c5_recover_wrapper (r : Router MiddlewareP) (hr : DerivedRouter r) :
    (∀ h : HandlerP, ∃ g : HandlerP, r.withMiddlewares h = Recover g) ∧
    (∀ (g : HandlerP) (c : Context), ∃ c2, Recover g c = RecResult.ok c2) ∧
    (∀ (g : HandlerP) (c c1 : Context) (err : String) (stack : List Char),
      g c = RecResult.panicked err stack c1 →
      ∃ rec : LogRecord,
        Recover g c = RecResult.ok
          (Context.AbortWithStatus { c1 with stderr := c1.stderr ++ [rec] } 500) ∧
        rec.stack = stack.take 65536 ∧
        rec.stack.length ≤ 65536 ∧
        rec.err = err ∧
        rec.rawReq = c1.request.map (fun q => dumpRequest q false) ∧
        (∀ q : Req, (dumpRequest q false).body = none) ∧
        (Context.AbortWithStatus { c1 with stderr := c1.stderr ++ [rec] } 500).writer.statusWrites
          = c1.writer.statusWrites ++ [500] ∧
        Context.IsAborted
          (Context.AbortWithStatus { c1 with stderr := c1.stderr ++ [rec] } 500) = true) := by
  obtain ⟨rest, hrest⟩ := derived_last_recover r hr
  refine ⟨?_, ?_, ?_⟩
  · intro h
    exact ⟨rest.foldl (fun h m => m h) h, withMiddlewares_last r rest hrest h⟩
  · intro g c
    unfold Recover
    cases hg : g c with
    | ok c2 => exact ⟨c2, rfl⟩
    | panicked err stack c1 => exact ⟨_, rfl⟩
  · intro g c c1 err stack hg
    refine ⟨⟨c1.request.map (fun q => dumpRequest q false), err, stack.take 65536⟩,
      ?_, rfl, ?_, rfl, rfl, fun q => rfl, rfl, rfl⟩
    · unfold Recover
      rw [hg]
    · simp

/-- Claim C2: `Abort` sets the index to the reserved sentinel, which exceeds
every valid chain position (the `int8` index caps usable chains at 63
handlers); `IsAborted` holds exactly when the index has reached or passed the
sentinel; and when the handler at position `k` calls `Abort`, no handler at a
position past `k` is ever entered by the `Next` loop, while handler `k`'s own
body still runs to completion (every one of its work statements executes). -/
theorem c2_abort_flow (c : Context) (k fuel : Nat)
    (hidx : c.index = -1) (hlog : c.log = [])
    (hlen : c.handlers.length ≤ 63)
    (hk : k < c.handlers.length)
    (hfuel : c.handlers.length + 1 ≤ fuel)
    (hbefore : ∀ i (hi : i < c.handlers.length), i < k → Cmd.abort ∉ c.handlers.get ⟨i, hi⟩)
    (habort : Cmd.abort ∈ c.handlers.get ⟨k, hk⟩) :
    (∀ c3 : Context, (Context.Abort c3).index = abortIndex) ∧
    (∀ j : Nat, j < c.handlers.length → (j : Int) < abortIndex) ∧
    (∀ c3 : Context, Context.IsAborted c3 = true ↔ abortIndex ≤ c3.index) ∧
    (∃ c2 : Context, c.Next fuel = some c2 ∧
      Context.IsAborted c2 = true ∧
      (∀ j, k < j → Ev.enter j ∉ c2.log) ∧
      (∀ t : Nat, Cmd.work t ∈ c.handlers.get ⟨k, hk⟩ → Ev.work k t ∈ c2.log)) := by
  refine ⟨fun c3 => rfl, ?_, ?_, ?_⟩
  · intro j hj
    have hjl : (j : Int) < (c.handlers.length : Int) := by exact_mod_cast hj
    have h63 : (c.handlers.length : Int) ≤ 63 := by exact_mod_cast hlen
    show (j : Int) < (63 : Int)
    omega
  · intro c3
    simp [Context.IsAborted]
  · have h0 : ({ c with index := wrap8 (c.index + 1) } : Context).index = ((0 : Nat) : Int) := by
      show wrap8 (c.index + 1) = ((0 : Nat) : Int)
      rw [hidx]
      decide
    obtain ⟨c2, ext, hrun, hhand, hidxf, hlogf, henter, hwork⟩ :=
      nextLoop_abort_run c.handlers k hk hlen habort k fuel
        { c with index := wrap8 (c.index + 1) } 0 rfl h0 (by omega)
        (fun p hp _ hpk => hbefore p hp hpk) (by omega)
    have hlog2 : ({ c with index := wrap8 (c.index + 1) } : Context).log = [] := hlog
    refine ⟨c2, hrun, ?_, ?_, ?_⟩
    · simp only [Context.IsAborted, hidxf]
      decide
    · intro j hj hmem
      rw [hlogf, hlog2, List.nil_append] at hmem
      exact absurd (henter j hmem) (by omega)
    · intro t ht
      rw [hlogf]
      exact List.mem_append_right _ (hwork t ht)

/-- A concrete three-handler chain whose middle handler calls `Abort` between
two work statements. -/
def chainW : List (List Cmd) :=
  [[Cmd.work 0], [Cmd.work 1, Cmd.abort, Cmd.work 2], [Cmd.work 3]]

/-- Witness for C2 on a concrete chain aborting at position 1. -/
theorem c2_abort_flow_witness :
    (∀ c3 : Context, (Context.Abort c3).index = abortIndex) ∧
    (∀ j : Nat, j < ({ ctx0 with handlers := chainW } : Context).handlers.length →
      (j : Int) < abortIndex) ∧
    (∀ c3 : Context, Context.IsAborted c3 = true ↔ abortIndex ≤ c3.index) ∧
    (∃ c2 : Context, Context.Next { ctx0 with handlers := chainW } 4 = some c2 ∧
      Context.IsAborted c2 = true ∧
      (∀ j, 1 < j → Ev.enter j ∉ c2.log) ∧
      (∀ t : Nat, Cmd.work t ∈ ({ ctx0 with handlers := chainW } : Context).handlers.get
        ⟨1, by decide⟩ → Ev.work 1 t ∈ c2.log)) :=
  c2_abort_flow { ctx0 with handlers := chainW } 1 4 rfl rfl (by decide) (by decide)
    (by decide) (by decide) (by decide)

/-- Witness for C5 at the fresh engine's router. -/
theorem c5_recover_wrapper_witness :
    (∀ h : HandlerP, ∃ g : HandlerP, plumNewRouter.withMiddlewares h = Recover g) ∧
    (∀ (g : HandlerP) (c : Context), ∃ c2, Recover g c = RecResult.ok c2) ∧
    (∀ (g : HandlerP) (c c1 : Context) (err : String) (stack : List Char),
      g c = RecResult.panicked err stack c1 →
      ∃ rec : LogRecord,
        Recover g c = RecResult.ok
          (Context.AbortWithStatus { c1 with stderr := c1.stderr ++ [rec] } 500) ∧
        rec.stack = stack.take 65536 ∧
        rec.stack.length ≤ 65536 ∧
        rec.err = err ∧
        rec.rawReq = c1.request.map (fun q => dumpRequest q false) ∧
        (∀ q : Req, (dumpRequest q false).body = none) ∧
        (Context.AbortWithStatus { c1 with stderr := c1.stderr ++ [rec] } 500).writer.statusWrites
          = c1.writer.statusWrites ++ [500] ∧
        Context.IsAborted
          (Context.AbortWithStatus { c1 with stderr := c1.stderr ++ [rec] } 500) = true) :=
  c5_recover_wrapper plumNewRouter DerivedRouter.new

lemma applyAction_no_abort (c : Context) (a : CtxAction)
    (hh : c.handlers = []) (hi1 : -1 ≤ c.index) (hi2 : c.index ≤ 126)
    (hna : isAbortFamily a = false) :
    ∃ c2, applyAction c a = some c2 ∧ c2.handlers = [] ∧ -1 ≤ c2.index ∧
      c2.index ≤ c.index + (if a = CtxAction.next then 1 else 0) := by
  cases a with
  | next =>
    refine ⟨{ c with index := c.index + 1 }, ?_, hh,
      show (-1 : Int) ≤ c.index + 1 by omega, by simp⟩
    show c.Next (c.handlers.length + 1) = _
    exact Context.next_empty c _ hh hi1 hi2
  | abort => simp [isAbortFamily] at hna
  | abortWithStatus code => simp [isAbortFamily] at hna
  | set key value =>
    refine ⟨c.Set key value, rfl, ?_, ?_, ?_⟩ <;>
      (unfold Context.Set; cases c.keys <;> simp [hh, hi1])
  | addParam key value =>
    exact ⟨_, rfl, hh, by simpa using hi1, by simp [Context.AddParam]⟩
  | header key value =>
    refine ⟨c.Header key value, rfl, ?_, ?_, ?_⟩ <;>
      (unfold Context.Header; by_cases hv : value = "" <;> simp [hv, hh, hi1])
  | status code =>
    exact ⟨_, rfl, hh, by simpa using hi1, by simp [Context.Status]⟩
  | setSameSite s =>
    exact ⟨_, rfl, hh, by simpa using hi1, by simp [Context.SetSameSite]⟩

lemma runActions_no_abort (acts : List CtxAction) :
    ∀ (c : Context), c.handlers = [] → -1 ≤ c.index →
      c.index + (acts.count CtxAction.next : Int) ≤ 62 →
      (∀ a ∈ acts, isAbortFamily a = false) →
      ∃ c2, runActions c acts = some c2 ∧ c2.handlers = [] ∧
        -1 ≤ c2.index ∧ c2.index ≤ c.index + (acts.count CtxAction.next : Int) := by
  induction acts with
  | nil =>
    intro c hh h1 _ _
    exact ⟨c, rfl, hh, h1, by simp⟩
  | cons a rest ih =>
    intro c hh h1 h2 hno
    have hcnt : ((a :: rest).count CtxAction.next : Int) =
        (rest.count CtxAction.next : Int) + (if a = CtxAction.next then 1 else 0) := by
      rw [List.count_cons]
      by_cases hae : CtxAction.next = a
      · simp [hae.symm]
      · have : ¬ (a = CtxAction.next) := fun h => hae h.symm
        simp [hae, this]
    rw [hcnt] at h2
    obtain ⟨c1, ha, hh1, hi1, hstep⟩ :=
      applyAction_no_abort c a hh h1 (by split at h2 <;> omega)
        (hno a (List.mem_cons_self a rest))
    by_cases han : a = CtxAction.next
    · rw [if_pos han] at h2 hstep
      obtain ⟨c2, hr, hh2, hi2, hle⟩ :=
        ih c1 hh1 hi1 (by omega) (fun b hb => hno b (List.mem_cons_of_mem a hb))
      refine ⟨c2, ?_, hh2, hi2, ?_⟩
      · show runActions c (a :: rest) = some c2
        unfold runActions
        rw [ha]
        exact hr
      · rw [hcnt, if_pos han]
        omega
    · rw [if_neg han] at h2 hstep
      obtain ⟨c2, hr, hh2, hi2, hle⟩ :=
        ih c1 hh1 hi1 (by omega) (fun b hb => hno b (List.mem_cons_of_mem a hb))
      refine ⟨c2, ?_, hh2, hi2, ?_⟩
      · show runActions c (a :: rest) = some c2
        unfold runActions
        rw [ha]
        exact hr
      · rw [hcnt, if_neg han]
        omega

/-- A concrete request used to instantiate dispatch states. -/
def reqW : Req := { method := "GET", headers := [], body := "" }

/-- Claim C9, amended (counterexample `c9_counterexample`): during dispatch
the flat handler list is empty and stays empty under every context API call,
so `Next` only increments the index (no handler is invoked, the event log is
unchanged); and with no Abort-family call, `IsAborted` stays false as long as
fewer than 64 bare `Next` increments have accumulated -- 64 of them do push
the `int8` index from -1 to the sentinel without any Abort call. -/
theorem c9_next_only_increments (w : Writer) (req : Req) (pooled : Context)
    (acts : List CtxAction) (c : Context)
    (hh : c.handlers = []) (hidx : c.index = -1)
    (hno : ∀ a ∈ acts, isAbortFamily a = false)
    (hcount : acts.count CtxAction.next < 64) :
    ((dispatchCtx w req pooled).handlers = [] ∧ (dispatchCtx w req pooled).index = -1) ∧
    (∀ (c3 : Context) (fuel : Nat), c3.handlers = [] → -1 ≤ c3.index → c3.index ≤ 126 →
      c3.Next fuel = some { c3 with index := c3.index + 1 }) ∧
    (∃ c2, runActions c acts = some c2 ∧ c2.handlers = [] ∧
      Context.IsAborted c2 = false) := by
  refine ⟨⟨rfl, rfl⟩, fun c3 fuel => Context.next_empty c3 fuel, ?_⟩
  have hcle : (acts.count CtxAction.next : Int) ≤ 63 := by omega
  obtain ⟨c2, hr, hh2, _, hle⟩ :=
    runActions_no_abort acts c hh (by omega) (by omega) hno
  refine ⟨c2, hr, hh2, ?_⟩
  simp only [Context.IsAborted]
  rw [decide_eq_false_iff_not]
  show ¬ ((63 : Int) ≤ c2.index)
  omega

/-- Counterexample to C9 as stated: from a freshly dispatched context, 64
bare `Next` calls -- none of them an Abort-family call -- leave the context
reporting `IsAborted = true`. -/
theorem c9_counterexample :
    (∀ a ∈ List.replicate 64 CtxAction.next, isAbortFamily a = false) ∧
    (runActions (dispatchCtx { statusWrites := [], headers := [] } reqW ctx0)
      (List.replicate 64 CtxAction.next)).map Context.IsAborted = some true := by
  constructor
  · decide
  · decide

/-- Witness for the amended C9 on a concrete action sequence. -/
theorem c9_next_only_increments_witness :
    ((dispatchCtx { statusWrites := [], headers := [] } reqW ctx0).handlers = [] ∧
      (dispatchCtx { statusWrites := [], headers := [] } reqW ctx0).index = -1) ∧
    (∀ (c3 : Context) (fuel : Nat), c3.handlers = [] → -1 ≤ c3.index → c3.index ≤ 126 →
      c3.Next fuel = some { c3 with index := c3.index + 1 }) ∧
    (∃ c2, runActions (dispatchCtx { statusWrites := [], headers := [] } reqW ctx0)
        [CtxAction.next, CtxAction.set "k" 1, CtxAction.next] = some c2 ∧
      c2.handlers = [] ∧ Context.IsAborted c2 = false) :=
  c9_next_only_increments { statusWrites := [], headers := [] } reqW ctx0
    [CtxAction.next, CtxAction.set "k" 1, CtxAction.next]
    (dispatchCtx { statusWrites := [], headers := [] } reqW ctx0)
    rfl rfl (by decide) (by decide)

end Plum
